import Mathlib

/-!
Verification of `itracker/training/validator.py` (gaze-capture validation
pipeline): shallow embedding of the face-geometry extractor, the error
metric computation, the validation loop's progress reporting and
accumulation, and the result-matrix builder, with theorems checking the
documented behaviour.
-/

namespace Validator

/-! ## Face-geometry extractor (`Validator.__compute_face_pos`, `face_pos`)

A mask is a 2-D occupancy grid, row-major: `mask[i][j]` is the cell at row
`i`, column `j`.  Entries are natural numbers (nonzero = occupied). -/

/-- Embedding of `tf.count_nonzero(mask, axis=[1])`: for each row, the number
of nonzero entries in that row (the reduction sums out axis 1, the column
axis, leaving one count per row). -/
def count_nonzero_axis1 (mask : List (List ℕ)) : List ℕ :=
  mask.map (fun row => row.countP (fun v => decide (v ≠ 0)))

/-- Embedding of `tf.count_nonzero(mask, axis=[0])`: for each column index
`j`, the number of rows whose entry at column `j` is nonzero (the reduction
sums out axis 0, the row axis, leaving one count per column). -/
def count_nonzero_axis0 (mask : List (List ℕ)) : List ℕ :=
  (List.range (mask.headD []).length).map
    (fun j => mask.countP (fun row => decide (row.getD j 0 ≠ 0)))

/-- Embedding of `tf.count_nonzero(mask, axis=[1, 2])` for one sample: the
total number of nonzero cells of the mask. -/
def face_area (mask : List (List ℕ)) : ℕ :=
  (count_nonzero_axis1 mask).sum

/-- Embedding of `tf.argmax(profile, axis=0)`: index of the maximum value of
the profile, ties broken by the first occurrence (the index of the first
entry that is greater than or equal to every entry). -/
def argmaxFirst (l : List ℕ) : ℕ :=
  l.findIdx (fun x => l.all (fun y => decide (y ≤ x)))

/-- Embedding of the body of `face_pos` for one axis: given the 1-D
occupancy profile, chop it just before the argmax (`chopped =
profile[:block_index]`) and return `length - count_nonzero(chopped)` (the
number of leading zeros before the occupied block). -/
def marginOf (profile : List ℕ) : ℕ :=
  (profile.take (argmaxFirst profile)).length
    - (profile.take (argmaxFirst profile)).countP (fun v => decide (v ≠ 0))

/-- Embedding of `face_pos(mask)` from `Validator.__compute_face_pos`:
`x_pos` is computed from `columns = tf.count_nonzero(mask, axis=[1])`
(per-row counts) and `y_pos` from `rows = tf.count_nonzero(mask, axis=[0])`
(per-column counts); the result is `tf.stack((x_pos, y_pos))`. -/
def face_pos (mask : List (List ℕ)) : ℕ × ℕ :=
  (marginOf (count_nonzero_axis1 mask), marginOf (count_nonzero_axis0 mask))

/-- Embedding of `tf.map_fn(face_pos, masks)`: the per-sample map over the
batch dimension. -/
def compute_face_pos (masks : List (List (List ℕ))) : List (ℕ × ℕ) :=
  masks.map face_pos

/-- A 25x25 mask holding a single contiguous rectangular occupied region
with top-left corner at row `r0`, column `c0`, height `h` and width `w`
(cells inside the rectangle are 1, all others 0). -/
def rectMask (r0 c0 h w : ℕ) : List (List ℕ) :=
  (List.range 25).map (fun i =>
    (List.range 25).map (fun j =>
      if r0 ≤ i ∧ i < r0 + h ∧ c0 ≤ j ∧ j < c0 + w then 1 else 0))

/-- The all-zero 25x25 mask. -/
def zeroMask : List (List ℕ) :=
  (List.range 25).map (fun _ => (List.range 25).map (fun _ => 0))

/-- Definition following the spec's words in section 4.1 for one axis: the
count of exactly-zero entries of the profile strictly before the profile's
stable (first-occurrence) argmax. -/
def specZeroMargin (profile : List ℕ) : ℕ :=
  ((profile.take (argmaxFirst profile)).filter (fun v => decide (v = 0))).length

/-! ## Error metric (`_build_analysis_graph` lines 120-123) -/

/-- Modelled from the spec: `metrics.distance_metric` is defined in
`itracker/training/metrics.py`, which is not under `src/`; the spec (section
4.2) defines it as the Euclidean norm of the difference of the two 2-D
coordinates, per sample. -/
noncomputable def distance_metric (truth predicted : ℝ × ℝ) : ℝ :=
  Real.sqrt ((truth.1 - predicted.1) ^ 2 + (truth.2 - predicted.2) ^ 2)

/-- The labels dictionary produced by `net.prepare_labels`; the analysis
graph reads its `"dots"` entry (the ground-truth gaze coordinate). -/
structure Labels where
  dots : ℝ × ℝ

/-- Embedding of `self.__coord_error = self.__labels["dots"] - predicted_gaze`
for one sample (componentwise subtraction). -/
def coord_error (labels : Labels) (predicted_gaze : ℝ × ℝ) : ℝ × ℝ :=
  (labels.dots.1 - predicted_gaze.1, labels.dots.2 - predicted_gaze.2)

/-- Embedding of
`self.__error = metrics.distance_metric(self.__labels["dots"], predicted_gaze)`
for one sample. -/
noncomputable def analysis_error (labels : Labels) (predicted_gaze : ℝ × ℝ) : ℝ :=
  distance_metric labels.dots predicted_gaze

/-- Embedding of the label preparation in `Validator._build_model`:
`self.__labels = net.prepare_labels(self.__labels)`, so the labels the
analysis graph later reads are the prepared ones, whatever the network's
`prepare_labels` does. -/
def build_model_labels {L : Type} (prepare_labels : L → Labels) (raw_labels : L) : Labels :=
  prepare_labels raw_labels

/-- A point of the Euclidean plane from a pair, for comparing the code's
error with the genuine Euclidean distance. -/
noncomputable def euclideanPoint (v : ℝ × ℝ) : EuclideanSpace ℝ (Fin 2) :=
  (WithLp.equiv 2 (Fin 2 → ℝ)).symm ![v.1, v.2]

/-! ## Configuration checking (`Validator._build_model` lines 44-54) -/

/-- Network architectures selectable through `config.NET_ARCH`; the
branched autoencoder network is the variant that needs the extra CLI
parameters, any other architecture does not. -/
inductive NetArch where
  | branchedAutoenc
  | plain
deriving DecidableEq

/-- CLI arguments read by `Validator._build_model`; Python truthiness of
`args.autoencoder_weights` and `args.clusters` (absent or empty is falsy)
is modelled as one Bool per argument. -/
structure BuildArgs where
  autoencoder_weights : Bool
  clusters : Bool
deriving DecidableEq

/-- Embedding of the parameter checking in `Validator._build_model`: when
`config.NET_ARCH == branched_autoenc_network.BranchedAutoencNetwork`, a
falsy `--autoencoder_weights` or `--clusters` raises a `ValueError` before
any validation batch runs; otherwise construction proceeds. -/
def build_model_check (arch : NetArch) (args : BuildArgs) : Except String Unit :=
  if arch = NetArch.branchedAutoenc then
    if !args.autoencoder_weights then
      Except.error "--autoencoder_weights is required for this network."
    else if !args.clusters then
      Except.error "--clusters is required for this network."
    else Except.ok ()
  else Except.ok ()

/-! ## Progress reporting (`Validator.validate` lines 147-166) -/

/-- One iteration of the progress logic in the validation loop, acting on
the pair (current `percentage`, progress lines emitted so far):
`new_percentage = float(i) / num_batches * 100` is printed, and becomes the
new `percentage`, exactly when `new_percentage - percentage > 0.01`. -/
def progressStep (num_batches : ℕ) (st : ℚ × List ℚ) (i : ℕ) : ℚ × List ℚ :=
  if (i : ℚ) / (num_batches : ℚ) * 100 - st.1 > 1 / 100 then
    ((i : ℚ) / (num_batches : ℚ) * 100, st.2 ++ [(i : ℚ) / (num_batches : ℚ) * 100])
  else st

/-- The `percentage` state and emitted progress percentages after the
loop `for i in range(0, num_batches)` with initial `percentage = 0.0`. -/
def progressRun (num_batches : ℕ) : ℚ × List ℚ :=
  (List.range num_batches).foldl (progressStep num_batches) (0, [])

/-! ## Accumulation and result-matrix assembly (`Validator.validate` lines 140-190) -/

/-- The values one batch contributes after `session.run`: per-sample scalar
error, coordinate error (2-vector), pose (3-vector), face area, face
position (2-vector), and session identifier (one array per sample; length 1
holds the scalar session number). Numeric values are modelled as rationals. -/
structure BatchOut where
  error : List ℚ
  coord_error : List (ℚ × ℚ)
  pose : List (ℚ × ℚ × ℚ)
  face_area : List ℚ
  face_pos : List (ℚ × ℚ)
  session_num : List (List ℚ)
deriving DecidableEq

/-- Embedding of the accumulation loop of `Validator.validate`: for
`i in range(0, num_batches)` each of the six `total_*` lists is extended
with the batch's per-sample values, in batch order. -/
def accumulate (src : ℕ → BatchOut) (num_batches : ℕ) : BatchOut where
  error := ((List.range num_batches).map (fun i => (src i).error)).flatten
  coord_error := ((List.range num_batches).map (fun i => (src i).coord_error)).flatten
  pose := ((List.range num_batches).map (fun i => (src i).pose)).flatten
  face_area := ((List.range num_batches).map (fun i => (src i).face_area)).flatten
  face_pos := ((List.range num_batches).map (fun i => (src i).face_pos)).flatten
  session_num := ((List.range num_batches).map (fun i => (src i).session_num)).flatten

/-- Embedding of `np.stack(l, axis=1)` for a list of 2-vectors: a 2-row
matrix, the first components then the second components. -/
def stack_pairs (l : List (ℚ × ℚ)) : List (List ℚ) :=
  [l.map Prod.fst, l.map Prod.snd]

/-- Embedding of `np.stack(l, axis=1)` for a list of 3-vectors: a 3-row
matrix of the three component lists. -/
def stack_triples (l : List (ℚ × ℚ × ℚ)) : List (List ℚ) :=
  [l.map (fun v => v.1), l.map (fun v => v.2.1), l.map (fun v => v.2.2)]

/-- Embedding of `np.transpose` (`.T`) of a rectangular 2-D array given as
a list of rows. -/
def np_transpose (m : List (List ℚ)) : List (List ℚ) :=
  (List.range (m.headD []).length).map (fun j => m.map (fun row => row.getD j 0))

/-- Embedding of the matrix assembly in `Validator.validate`:
`error_row = expand_dims(asarray(total_error), 0)`,
`coord_error_stack = stack(total_coord_error, axis=1)`,
`pose_stack = stack(total_pose, axis=1)`,
`face_area_row = expand_dims(asarray(total_face_area), 0)`,
`face_pos_stack = stack(total_face_pos, axis=1)`,
`session_num_row = asarray(total_session_num).T`, concatenated along axis 0
in the order (error, coord error, pose, face area, face position, session
number), and the result transposed so variables become columns. -/
def build_data_matrix (acc : BatchOut) : List (List ℚ) :=
  np_transpose ([acc.error]
    ++ stack_pairs acc.coord_error
    ++ stack_triples acc.pose
    ++ [acc.face_area]
    ++ stack_pairs acc.face_pos
    ++ np_transpose acc.session_num)

/-- A two-batch example source with one sample per batch, for exercising
the accumulation and matrix assembly on concrete data. -/
def exSrc : ℕ → BatchOut := fun i =>
  if i = 0 then ⟨[1], [(2, 3)], [(4, 5, 6)], [7], [(8, 9)], [[10]]⟩
  else ⟨[11], [(12, 13)], [(14, 15, 16)], [17], [(18, 19)], [[20]]⟩

/-- Counting the members of `range n` lying in the interval `[a, b)`. -/
theorem countP_range_interval (a b : ℕ) : ∀ n,
    (List.range n).countP (fun j => decide (a ≤ j ∧ j < b)) = min b n - min a n := by
  intro n
  induction n with
  | zero => simp
  | succ n ih =>
    rw [List.range_succ, List.countP_append, ih]
    by_cases hc : a ≤ n ∧ n < b <;> simp [List.countP_cons, hc] <;> omega

/-- Summing, over `range n`, a value `w` on the interval `[a, b)` and `0`
elsewhere. -/
theorem sum_range_interval (a b w : ℕ) : ∀ n,
    ((List.range n).map (fun i => if a ≤ i ∧ i < b then w else 0)).sum
      = (min b n - min a n) * w := by
  intro n
  induction n with
  | zero => simp
  | succ n ih =>
    rw [List.range_succ, List.map_append, List.sum_append, ih]
    by_cases hc : a ≤ n ∧ n < b
    · have hx : min b (n + 1) - min a (n + 1) = (min b n - min a n) + 1 := by omega
      simp [hc, hx, Nat.add_mul]
    · have hx : min b (n + 1) - min a (n + 1) = min b n - min a n := by omega
      simp [hc, hx]

/-- The per-row occupancy profile of a rectangular mask: `w` for the `h`
rows through the block, `0` elsewhere. -/
theorem count_nonzero_axis1_rectMask (r0 c0 h w : ℕ) (hc : c0 + w ≤ 25) :
    count_nonzero_axis1 (rectMask r0 c0 h w)
      = (List.range 25).map (fun i => if r0 ≤ i ∧ i < r0 + h then w else 0) := by
  unfold count_nonzero_axis1 rectMask
  rw [List.map_map]
  apply List.map_congr_left
  intro i _
  simp only [Function.comp]
  rw [List.countP_map]
  by_cases hrow : r0 ≤ i ∧ i < r0 + h
  · rw [if_pos hrow]
    rw [List.countP_congr (q := fun j => decide (c0 ≤ j ∧ j < c0 + w))]
    · rw [countP_range_interval]
      omega
    · intro j _
      constructor
      · intro hj
        simp only [Function.comp, decide_eq_true_eq, ne_eq] at hj ⊢
        by_contra hcj
        rw [if_neg] at hj
        · exact hj rfl
        · tauto
      · intro hj
        simp only [decide_eq_true_eq] at hj
        simp only [Function.comp, decide_eq_true_eq, ne_eq]
        rw [if_pos ⟨hrow.1, hrow.2, hj.1, hj.2⟩]
        exact one_ne_zero
  · rw [if_neg hrow]
    rw [List.countP_eq_zero]
    intro j _
    simp only [Function.comp, decide_eq_true_eq, ne_eq, not_not]
    rw [if_neg]
    tauto

/-- All rows of a rectangular mask have length 25, so the head used by the
axis-0 reduction has length 25. -/
theorem rectMask_headD_length (r0 c0 h w : ℕ) :
    ((rectMask r0 c0 h w).headD []).length = 25 := by
  unfold rectMask
  rw [show (25 : ℕ) = 24 + 1 from rfl, List.range_succ_eq_map]
  simp

/-- The per-column occupancy profile of a rectangular mask: `h` for the `w`
columns through the block, `0` elsewhere. -/
theorem count_nonzero_axis0_rectMask (r0 c0 h w : ℕ) (hr : r0 + h ≤ 25) :
    count_nonzero_axis0 (rectMask r0 c0 h w)
      = (List.range 25).map (fun j => if c0 ≤ j ∧ j < c0 + w then h else 0) := by
  unfold count_nonzero_axis0
  rw [rectMask_headD_length]
  apply List.map_congr_left
  intro j hj
  rw [List.mem_range] at hj
  unfold rectMask
  rw [List.countP_map]
  have hget : ∀ i : ℕ,
      ((List.range 25).map (fun j' =>
        if r0 ≤ i ∧ i < r0 + h ∧ c0 ≤ j' ∧ j' < c0 + w then 1 else 0)).getD j 0
      = if r0 ≤ i ∧ i < r0 + h ∧ c0 ≤ j ∧ j < c0 + w then 1 else 0 := by
    intro i
    have hlen : j < ((List.range 25).map (fun j' =>
        if r0 ≤ i ∧ i < r0 + h ∧ c0 ≤ j' ∧ j' < c0 + w then 1 else 0)).length := by
      simpa using hj
    rw [List.getD_eq_getElem _ _ hlen]
    simp
  by_cases hcol : c0 ≤ j ∧ j < c0 + w
  · rw [if_pos hcol]
    rw [List.countP_congr (q := fun i => decide (r0 ≤ i ∧ i < r0 + h))]
    · rw [countP_range_interval]
      omega
    · intro i _
      simp only [Function.comp, hget i, decide_eq_true_eq, ne_eq]
      constructor
      · intro hi
        by_contra hri
        rw [if_neg] at hi
        · exact hi rfl
        · tauto
      · intro hi
        rw [if_pos ⟨hi.1, hi.2, hcol.1, hcol.2⟩]
        exact one_ne_zero
  · rw [if_neg hcol]
    rw [List.countP_eq_zero]
    intro i _
    simp only [Function.comp, hget i, decide_eq_true_eq, ne_eq, not_not]
    rw [if_neg]
    tauto

/-- The stable argmax of an interval profile is the left end of the
interval: entries before `a` are `0 < w`, and the entry at `a` is `w`, an
upper bound of the whole profile. -/
theorem argmaxFirst_interval (n a b w : ℕ) (hw : 0 < w) (ha : a < n) (hab : a < b) :
    argmaxFirst ((List.range n).map (fun i => if a ≤ i ∧ i < b then w else 0)) = a := by
  have hmem_le : ∀ y ∈ (List.range n).map (fun i => if a ≤ i ∧ i < b then w else 0),
      y ≤ w := by
    intro y hy
    rw [List.mem_map] at hy
    obtain ⟨i, _, hi⟩ := hy
    by_cases hcase : a ≤ i ∧ i < b
    · rw [if_pos hcase] at hi
      omega
    · rw [if_neg hcase] at hi
      omega
  have hwmem : w ∈ (List.range n).map (fun i => if a ≤ i ∧ i < b then w else 0) := by
    rw [List.mem_map]
    exact ⟨a, List.mem_range.mpr ha, if_pos ⟨le_refl a, hab⟩⟩
  unfold argmaxFirst
  rw [List.findIdx_eq (by simpa using ha)]
  constructor
  · simp only [List.getElem_map, List.getElem_range, List.all_eq_true, decide_eq_true_eq]
    rw [if_pos ⟨le_refl a, hab⟩]
    exact hmem_le
  · intro j hja
    simp only [List.getElem_map, List.getElem_range, List.all_eq_true]
    rw [if_neg (by omega)]
    refine (Bool.eq_false_iff).mpr ?_
    intro hall
    rw [List.all_eq_true] at hall
    have := hall w hwmem
    simp only [decide_eq_true_eq] at this
    omega

/-- The leading-zero margin of an interval profile is the left end of the
interval. -/
theorem marginOf_interval (n a b w : ℕ) (hw : 0 < w) (ha : a < n) (hab : a < b) :
    marginOf ((List.range n).map (fun i => if a ≤ i ∧ i < b then w else 0)) = a := by
  unfold marginOf
  rw [argmaxFirst_interval n a b w hw ha hab]
  rw [← List.map_take, List.take_range]
  have hmin : min a n = a := by omega
  rw [hmin]
  have hcount : ((List.range a).map
      (fun i => if a ≤ i ∧ i < b then w else 0)).countP (fun v => decide (v ≠ 0)) = 0 := by
    rw [List.countP_eq_zero]
    intro v hv
    rw [List.mem_map] at hv
    obtain ⟨i, hi, hiv⟩ := hv
    rw [List.mem_range] at hi
    rw [if_neg (by omega)] at hiv
    simp [← hiv]
  rw [hcount]
  simp

/-- Face area of a rectangular mask is the number of cells in the block. -/
theorem face_area_rectMask (r0 c0 h w : ℕ) (hr : r0 + h ≤ 25) (hc : c0 + w ≤ 25) :
    face_area (rectMask r0 c0 h w) = h * w := by
  unfold face_area
  rw [count_nonzero_axis1_rectMask r0 c0 h w hc, sum_range_interval]
  have : min (r0 + h) 25 - min r0 25 = h := by omega
  rw [this]

/-- Face position of a rectangular mask is its top-left corner `(r0, c0)`:
the first component comes from the per-row profile (`axis=[1]`), the second
from the per-column profile (`axis=[0]`). -/
theorem face_pos_rectMask (r0 c0 h w : ℕ) (hh : 0 < h) (hw : 0 < w)
    (hr : r0 + h ≤ 25) (hc : c0 + w ≤ 25) :
    face_pos (rectMask r0 c0 h w) = (r0, c0) := by
  unfold face_pos
  rw [count_nonzero_axis1_rectMask r0 c0 h w hc, count_nonzero_axis0_rectMask r0 c0 h w hr]
  rw [marginOf_interval 25 r0 (r0 + h) w hw (by omega) (by omega)]
  rw [marginOf_interval 25 c0 (c0 + w) h hh (by omega) (by omega)]

/-- C1: for every 25x25 mask holding a single contiguous rectangular
occupied region with top-left corner at row `r0`, column `c0`, height `h`
and width `w` (nonempty and inside the grid), the face-geometry extraction
returns face area `h * w` and a position whose two margin components are
`(r0, c0)`. -/
theorem claim_C1_rect_mask_extraction (r0 c0 h w : ℕ) (hh : 0 < h) (hw : 0 < w)
    (hr : r0 + h ≤ 25) (hc : c0 + w ≤ 25) :
    face_area (rectMask r0 c0 h w) = h * w ∧ face_pos (rectMask r0 c0 h w) = (r0, c0) :=
  ⟨face_area_rectMask r0 c0 h w hr hc, face_pos_rectMask r0 c0 h w hh hw hr hc⟩

/-- Witness for C1: the spec's literal example, a 5x5 block at rows 10-14,
columns 8-12, yields area 25 and position margins `(10, 8)`. -/
theorem claim_C1_rect_mask_extraction_witness :
    (0 < 5 ∧ 0 < 5 ∧ 10 + 5 ≤ 25 ∧ 8 + 5 ≤ 25) ∧
    face_area (rectMask 10 8 5 5) = 5 * 5 ∧ face_pos (rectMask 10 8 5 5) = (10, 8) :=
  ⟨by decide,
   claim_C1_rect_mask_extraction 10 8 5 5 (by decide) (by decide) (by decide) (by decide)⟩

/-- Entries of a profile of counts are either zero or nonzero, so the
chopped length minus the nonzero count equals the zero count. -/
theorem marginOf_eq_specZeroMargin (profile : List ℕ) :
    marginOf profile = specZeroMargin profile := by
  unfold marginOf specZeroMargin
  rw [← List.countP_eq_length_filter]
  have hsum := List.length_eq_countP_add_countP (p := fun v : ℕ => decide (v = 0))
      (profile.take (argmaxFirst profile))
  have hcongr : (profile.take (argmaxFirst profile)).countP (fun v => decide (v ≠ 0))
      = (profile.take (argmaxFirst profile)).countP (fun v => ¬ decide (v = 0)) := by
    apply List.countP_congr
    intro x _
    simp
  omega

/-- C2 (counterexample): the claim says the x component of the returned
position is the zero-margin of the per-column profile (reduction over
rows, `axis=[0]`); on the 5x5 block at rows 10-14, columns 8-12 the code's
x component is 10 while that per-column margin is 8. -/
theorem claim_C2_counterexample :
    ¬ (face_pos (rectMask 10 8 5 5)).1
        = specZeroMargin (count_nonzero_axis0 (rectMask 10 8 5 5)) := by
  decide

/-- C2 (amended): the x component of the returned face position is computed
from the per-row occupancy profile (`tf.count_nonzero(mask, axis=[1])`,
reducing over columns) and the y component from the per-column occupancy
profile (`axis=[0]`, reducing over rows), each component being the count of
exactly-zero entries strictly before the profile's stable (first-occurrence)
argmax. -/
theorem claim_C2_amended_axis_profiles (mask : List (List ℕ)) :
    face_pos mask
      = (specZeroMargin (count_nonzero_axis1 mask),
         specZeroMargin (count_nonzero_axis0 mask)) := by
  unfold face_pos
  rw [marginOf_eq_specZeroMargin, marginOf_eq_specZeroMargin]

/-- C5: the all-zero 25x25 mask raises no error and yields face area 0 and
the degenerate position `(0, 0)`: the argmax over each all-equal profile is
index 0, so the truncated profile is empty and its zero count is 0. -/
theorem claim_C5_zero_mask_degenerate :
    face_area zeroMask = 0 ∧ face_pos zeroMask = (0, 0) ∧
    argmaxFirst (count_nonzero_axis1 zeroMask) = 0 ∧
    (count_nonzero_axis1 zeroMask).take (argmaxFirst (count_nonzero_axis1 zeroMask)) = [] := by
  decide

/-- C6: the scalar error is the Euclidean distance between the true and
predicted 2-D gaze coordinates, the coordinate error is the signed
per-axis difference `truth - predicted`, and on the literal pair
pred = (0,0), truth = (3,4) the error is 5. -/
theorem claim_C6_error_is_euclidean (labels : Labels) (predicted_gaze : ℝ × ℝ) :
    analysis_error labels predicted_gaze
        = dist (euclideanPoint labels.dots) (euclideanPoint predicted_gaze)
    ∧ coord_error labels predicted_gaze
        = (labels.dots.1 - predicted_gaze.1, labels.dots.2 - predicted_gaze.2)
    ∧ analysis_error ⟨(3, 4)⟩ (0, 0) = 5 := by
  refine ⟨?_, rfl, ?_⟩
  · rw [EuclideanSpace.dist_eq]
    unfold euclideanPoint analysis_error distance_metric
    rw [Fin.sum_univ_two]
    simp only [WithLp.equiv_symm_pi_apply, Matrix.cons_val_zero, Matrix.cons_val_one,
      Matrix.head_cons, Real.dist_eq, sq_abs]
  · unfold analysis_error distance_metric
    rw [show ((3 : ℝ) - 0) ^ 2 + ((4 : ℝ) - 0) ^ 2 = 5 ^ 2 by norm_num]
    exact Real.sqrt_sq (by norm_num)

/-- C10: both error computations compare predictions against the prepared
labels `net.prepare_labels(raw)`, not against the raw label tensor; for a
`prepare_labels` that changes the labels, the computed error differs from
the error against the raw labels. -/
theorem claim_C10_errors_use_prepared_labels :
    (∀ (L : Type) (prepare_labels : L → Labels) (raw_labels : L) (predicted_gaze : ℝ × ℝ),
        analysis_error (build_model_labels prepare_labels raw_labels) predicted_gaze
            = distance_metric (prepare_labels raw_labels).dots predicted_gaze
        ∧ coord_error (build_model_labels prepare_labels raw_labels) predicted_gaze
            = coord_error (prepare_labels raw_labels) predicted_gaze)
    ∧ (∃ (prepare_labels : Labels → Labels) (raw_labels : Labels)
          (predicted_gaze : ℝ × ℝ),
        analysis_error (build_model_labels prepare_labels raw_labels) predicted_gaze
          ≠ analysis_error raw_labels predicted_gaze) := by
  refine ⟨fun L prep raw pred => ⟨rfl, rfl⟩, ?_⟩
  refine ⟨fun l => ⟨(l.dots.1 + 3, l.dots.2 + 4)⟩, ⟨(0, 0)⟩, (0, 0), ?_⟩
  unfold build_model_labels analysis_error distance_metric
  simp only
  rw [show ((0 : ℝ) + 3 - 0) ^ 2 + ((0 : ℝ) + 4 - 0) ^ 2 = 5 ^ 2 by norm_num,
    Real.sqrt_sq (by norm_num : (0 : ℝ) ≤ 5)]
  rw [show ((0 : ℝ) - 0) ^ 2 + ((0 : ℝ) - 0) ^ 2 = 0 by norm_num, Real.sqrt_zero]
  norm_num

/-- C8: constructing the validator fails with the auxiliary-parameter error
if and only if the architecture is the branched autoencoder variant and
the autoencoder-weights or the clusters argument is missing; in particular
other architectures never raise it. -/
theorem claim_C8_aux_parameter_check (arch : NetArch) (args : BuildArgs) :
    ((build_model_check arch args).isOk = false
      ↔ arch = NetArch.branchedAutoenc
          ∧ (args.autoencoder_weights = false ∨ args.clusters = false)) := by
  cases arch <;> obtain ⟨a, c⟩ := args <;> cases a <;> cases c <;> decide

/-- Invariant of the progress fold: emitted percentages stay bounded by the
current `percentage`, successive emissions differ by more than 0.01, and
every emission is `i / num_batches * 100` for some processed iteration. -/
theorem progress_foldl_invariant (n : ℕ) : ∀ (l : List ℕ) (st : ℚ × List ℚ),
    st.2.Chain' (fun a b => b - a > 1 / 100) →
    (∀ x ∈ st.2, x ≤ st.1) →
    ((l.foldl (progressStep n) st).2.Chain' (fun a b => b - a > 1 / 100) ∧
     (∀ x ∈ (l.foldl (progressStep n) st).2, x ≤ (l.foldl (progressStep n) st).1) ∧
     (∀ x ∈ (l.foldl (progressStep n) st).2,
        x ∈ st.2 ∨ ∃ i ∈ l, x = (i : ℚ) / (n : ℚ) * 100)) := by
  intro l
  induction l with
  | nil => exact fun st h1 h2 => ⟨h1, h2, fun x hx => Or.inl hx⟩
  | cons i l ih =>
    intro st h1 h2
    rw [List.foldl_cons]
    by_cases hcond : (i : ℚ) / (n : ℚ) * 100 - st.1 > 1 / 100
    · have hstep : progressStep n st i
          = ((i : ℚ) / (n : ℚ) * 100, st.2 ++ [(i : ℚ) / (n : ℚ) * 100]) := by
        unfold progressStep
        rw [if_pos hcond]
      rw [hstep]
      have h1' : (st.2 ++ [(i : ℚ) / (n : ℚ) * 100]).Chain' (fun a b => b - a > 1 / 100) := by
        rw [List.chain'_append]
        refine ⟨h1, List.chain'_singleton _, ?_⟩
        intro x hx y hy
        simp only [List.head?_cons, Option.mem_def, Option.some.injEq] at hy
        have hxmem : x ∈ st.2 := List.mem_of_getLast?_eq_some hx
        have := h2 x hxmem
        rw [← hy]
        linarith
      have h2' : ∀ x ∈ st.2 ++ [(i : ℚ) / (n : ℚ) * 100],
          x ≤ (i : ℚ) / (n : ℚ) * 100 := by
        intro x hx
        rw [List.mem_append] at hx
        rcases hx with hx | hx
        · have := h2 x hx
          linarith
        · rw [List.mem_singleton] at hx
          rw [hx]
      obtain ⟨g1, g2, g3⟩ := ih ((i : ℚ) / (n : ℚ) * 100, st.2 ++ [(i : ℚ) / (n : ℚ) * 100])
        h1' h2'
      refine ⟨g1, g2, ?_⟩
      intro x hx
      rcases g3 x hx with hmem | ⟨j, hj, hje⟩
      · rw [List.mem_append] at hmem
        rcases hmem with hmem | hmem
        · exact Or.inl hmem
        · rw [List.mem_singleton] at hmem
          exact Or.inr ⟨i, List.mem_cons_self i l, hmem⟩
      · exact Or.inr ⟨j, List.mem_cons_of_mem i hj, hje⟩
    · have hstep : progressStep n st i = st := by
        unfold progressStep
        rw [if_neg hcond]
      rw [hstep]
      obtain ⟨g1, g2, g3⟩ := ih st h1 h2
      refine ⟨g1, g2, ?_⟩
      intro x hx
      rcases g3 x hx with hmem | ⟨j, hj, hje⟩
      · exact Or.inl hmem
      · exact Or.inr ⟨j, List.mem_cons_of_mem i hj, hje⟩

/-- C7: for a run of `num_batches` iterations, every emitted progress value
is `i / num_batches * 100` for some iteration `i < num_batches`, successive
emissions differ by more than 0.01, and the emitted sequence is
non-decreasing. -/
theorem claim_C7_progress_monotone (num_batches : ℕ) :
    (∀ x ∈ (progressRun num_batches).2,
        ∃ i, i < num_batches ∧ x = (i : ℚ) / (num_batches : ℚ) * 100)
    ∧ (progressRun num_batches).2.Chain' (fun a b => b - a > 1 / 100)
    ∧ (progressRun num_batches).2.Chain' (fun a b => a ≤ b) := by
  have h := progress_foldl_invariant num_batches (List.range num_batches) (0, [])
    List.chain'_nil (by intro x hx; cases hx)
  obtain ⟨g1, _, g3⟩ := h
  unfold progressRun
  refine ⟨?_, g1, g1.imp ?_⟩
  · intro x hx
    rcases g3 x hx with hmem | ⟨i, hi, hie⟩
    · cases hmem
    · exact ⟨i, List.mem_range.mp hi, hie⟩
  · intro a b hab
    linarith

/-- Reading a mapped list at an in-range index with any defaults. -/
theorem getD_map_of_lt {α β : Type} (f : α → β) (l : List α) (j : ℕ) (d : β) (d2 : α)
    (h : j < l.length) : (l.map f).getD j d = f (l.getD j d2) := by
  rw [List.getD_eq_getElem _ _ (by simpa using h), List.getD_eq_getElem _ _ h]
  simp

/-- Transposing a nonempty column of singleton arrays yields the single row
of their entries. -/
theorem np_transpose_single_col (sess : List (List ℚ)) (N : ℕ) (hs : sess.length = N)
    (hpos : 0 < N) (hone : ∀ e ∈ sess, e.length = 1) :
    np_transpose sess = [sess.map (fun r => r.getD 0 0)] := by
  unfold np_transpose
  have hhead : (sess.headD []).length = 1 := by
    cases sess with
    | nil => simp at hs; omega
    | cons s rest => exact hone s (List.mem_cons_self _ _)
  rw [hhead, show List.range 1 = [0] from rfl]
  simp

/-- Layout of the assembled data matrix: `N` rows, each row the ten
variables of one sample in the fixed order error, coordinate error (x, y),
pose (x, y, z), face area, face position (x, y), session number. -/
theorem build_data_matrix_layout (acc : BatchOut) (N : ℕ)
    (he : acc.error.length = N) (hce : acc.coord_error.length = N)
    (hp : acc.pose.length = N) (hfa : acc.face_area.length = N)
    (hfp : acc.face_pos.length = N) (hs : acc.session_num.length = N)
    (hone : ∀ e ∈ acc.session_num, e.length = 1) (hpos : 0 < N) :
    (build_data_matrix acc).length = N ∧
    (∀ row ∈ build_data_matrix acc, row.length = 10) ∧
    (∀ j, j < N → (build_data_matrix acc).getD j []
      = [acc.error.getD j 0,
         (acc.coord_error.getD j (0, 0)).1, (acc.coord_error.getD j (0, 0)).2,
         (acc.pose.getD j (0, 0, 0)).1, (acc.pose.getD j (0, 0, 0)).2.1,
         (acc.pose.getD j (0, 0, 0)).2.2,
         acc.face_area.getD j 0,
         (acc.face_pos.getD j (0, 0)).1, (acc.face_pos.getD j (0, 0)).2,
         (acc.session_num.getD j []).getD 0 0]) := by
  have hsess := np_transpose_single_col acc.session_num N hs hpos hone
  unfold build_data_matrix
  rw [hsess]
  unfold stack_pairs stack_triples np_transpose
  simp only [List.cons_append, List.nil_append, List.headD_cons]
  rw [he]
  refine ⟨by simp, ?_, ?_⟩
  · intro row hrow
    rw [List.mem_map] at hrow
    obtain ⟨j, _, hj⟩ := hrow
    rw [← hj]
    simp
  · intro j hj
    have hlen : j < ((List.range N).map (fun j =>
        List.map (fun row => row.getD j 0)
          [acc.error,
           acc.coord_error.map Prod.fst, acc.coord_error.map Prod.snd,
           acc.pose.map (fun v => v.1), acc.pose.map (fun v => v.2.1),
           acc.pose.map (fun v => v.2.2),
           acc.face_area,
           acc.face_pos.map Prod.fst, acc.face_pos.map Prod.snd,
           acc.session_num.map (fun r => r.getD 0 0)])).length := by
      simpa using hj
    rw [List.getD_eq_getElem _ _ hlen]
    simp only [List.getElem_map, List.getElem_range, List.map_cons, List.map_nil]
    rw [getD_map_of_lt Prod.fst acc.coord_error j 0 (0, 0) (by omega),
      getD_map_of_lt Prod.snd acc.coord_error j 0 (0, 0) (by omega),
      getD_map_of_lt (fun v => v.1) acc.pose j 0 (0, 0, 0) (by omega),
      getD_map_of_lt (fun v => v.2.1) acc.pose j 0 (0, 0, 0) (by omega),
      getD_map_of_lt (fun v => v.2.2) acc.pose j 0 (0, 0, 0) (by omega),
      getD_map_of_lt Prod.fst acc.face_pos j 0 (0, 0) (by omega),
      getD_map_of_lt Prod.snd acc.face_pos j 0 (0, 0) (by omega),
      getD_map_of_lt (fun r => r.getD 0 0) acc.session_num j 0 [] (by omega)]

/-- C3: for a completed run with `N` total samples, the persisted matrix
has `N` rows of 10 entries each, the variable rows having been concatenated
in the fixed order [error, coord_error_x, coord_error_y, pose_x, pose_y,
pose_z, face_area, face_pos_x, face_pos_y, session_num] and the result
transposed so each row is one sample's full record. -/
theorem claim_C3_matrix_column_order (src : ℕ → BatchOut) (num_batches N : ℕ)
    (he : (accumulate src num_batches).error.length = N)
    (hce : (accumulate src num_batches).coord_error.length = N)
    (hp : (accumulate src num_batches).pose.length = N)
    (hfa : (accumulate src num_batches).face_area.length = N)
    (hfp : (accumulate src num_batches).face_pos.length = N)
    (hs : (accumulate src num_batches).session_num.length = N)
    (hone : ∀ e ∈ (accumulate src num_batches).session_num, e.length = 1)
    (hpos : 0 < N) :
    (build_data_matrix (accumulate src num_batches)).length = N ∧
    (∀ row ∈ build_data_matrix (accumulate src num_batches), row.length = 10) ∧
    (∀ j, j < N → (build_data_matrix (accumulate src num_batches)).getD j []
      = [(accumulate src num_batches).error.getD j 0,
         ((accumulate src num_batches).coord_error.getD j (0, 0)).1,
         ((accumulate src num_batches).coord_error.getD j (0, 0)).2,
         ((accumulate src num_batches).pose.getD j (0, 0, 0)).1,
         ((accumulate src num_batches).pose.getD j (0, 0, 0)).2.1,
         ((accumulate src num_batches).pose.getD j (0, 0, 0)).2.2,
         (accumulate src num_batches).face_area.getD j 0,
         ((accumulate src num_batches).face_pos.getD j (0, 0)).1,
         ((accumulate src num_batches).face_pos.getD j (0, 0)).2,
         ((accumulate src num_batches).session_num.getD j []).getD 0 0]) :=
  build_data_matrix_layout (accumulate src num_batches) N he hce hp hfa hfp hs hone hpos

/-- Witness for C3: two batches of one sample each give a 2x10 matrix with
the variables in the fixed column order. -/
theorem claim_C3_matrix_column_order_witness :
    ((accumulate exSrc 2).error.length = 2 ∧
     (accumulate exSrc 2).coord_error.length = 2 ∧
     (accumulate exSrc 2).pose.length = 2 ∧
     (accumulate exSrc 2).face_area.length = 2 ∧
     (accumulate exSrc 2).face_pos.length = 2 ∧
     (accumulate exSrc 2).session_num.length = 2 ∧
     (∀ e ∈ (accumulate exSrc 2).session_num, e.length = 1) ∧ 0 < 2) ∧
    ((build_data_matrix (accumulate exSrc 2)).length = 2 ∧
     (∀ row ∈ build_data_matrix (accumulate exSrc 2), row.length = 10) ∧
     (∀ j, j < 2 → (build_data_matrix (accumulate exSrc 2)).getD j []
        = [(accumulate exSrc 2).error.getD j 0,
           ((accumulate exSrc 2).coord_error.getD j (0, 0)).1,
           ((accumulate exSrc 2).coord_error.getD j (0, 0)).2,
           ((accumulate exSrc 2).pose.getD j (0, 0, 0)).1,
           ((accumulate exSrc 2).pose.getD j (0, 0, 0)).2.1,
           ((accumulate exSrc 2).pose.getD j (0, 0, 0)).2.2,
           (accumulate exSrc 2).face_area.getD j 0,
           ((accumulate exSrc 2).face_pos.getD j (0, 0)).1,
           ((accumulate exSrc 2).face_pos.getD j (0, 0)).2,
           ((accumulate exSrc 2).session_num.getD j []).getD 0 0])) :=
  ⟨⟨by decide, by decide, by decide, by decide, by decide, by decide, by decide, by decide⟩,
   claim_C3_matrix_column_order exSrc 2 2 (by decide) (by decide) (by decide) (by decide)
     (by decide) (by decide) (by decide) (by decide)⟩

/-- C4: the accumulated session identifiers (one singleton array per
sample) are turned by `asarray(...).T` into a single row of shape
`[1, N]`, namely the row of the per-sample session numbers, before being
concatenated with the other variable rows. -/
theorem claim_C4_session_single_row (src : ℕ → BatchOut) (num_batches N : ℕ)
    (hs : (accumulate src num_batches).session_num.length = N)
    (hone : ∀ e ∈ (accumulate src num_batches).session_num, e.length = 1)
    (hpos : 0 < N) :
    np_transpose (accumulate src num_batches).session_num
        = [(accumulate src num_batches).session_num.map (fun r => r.getD 0 0)]
    ∧ (np_transpose (accumulate src num_batches).session_num).length = 1
    ∧ ∀ row ∈ np_transpose (accumulate src num_batches).session_num, row.length = N := by
  have h := np_transpose_single_col (accumulate src num_batches).session_num N hs hpos hone
  refine ⟨h, by rw [h]; rfl, ?_⟩
  intro row hrow
  rw [h, List.mem_singleton] at hrow
  rw [hrow, List.length_map, hs]

/-- Witness for C4: the two accumulated session arrays `[10]`, `[20]`
transpose into the single row `[10, 20]`. -/
theorem claim_C4_session_single_row_witness :
    ((accumulate exSrc 2).session_num.length = 2 ∧
     (∀ e ∈ (accumulate exSrc 2).session_num, e.length = 1) ∧ 0 < 2) ∧
    (np_transpose (accumulate exSrc 2).session_num
        = [(accumulate exSrc 2).session_num.map (fun r => r.getD 0 0)]
     ∧ (np_transpose (accumulate exSrc 2).session_num).length = 1
     ∧ ∀ row ∈ np_transpose (accumulate exSrc 2).session_num, row.length = 2) :=
  ⟨⟨by decide, by decide, by decide⟩,
   claim_C4_session_single_row exSrc 2 2 (by decide) (by decide) (by decide)⟩

/-- C9: the aggregation pipeline is deterministic: two runs over equal
batch sources with the same batch count build equal data matrices, so any
serializer (a function of the matrix) writes byte-identical output. -/
theorem claim_C9_deterministic_rerun (serialize : List (List ℚ) → List ℕ)
    (src1 src2 : ℕ → BatchOut) (num_batches : ℕ) (h : ∀ i, src1 i = src2 i) :
    serialize (build_data_matrix (accumulate src1 num_batches))
      = serialize (build_data_matrix (accumulate src2 num_batches)) := by
  rw [show src1 = src2 from funext h]

/-- Witness for C9: rerunning on the example source gives identical
serialized bytes for a concrete serializer. -/
theorem claim_C9_deterministic_rerun_witness :
    (∀ i, exSrc i = exSrc i) ∧
    (fun m : List (List ℚ) => [m.length]) (build_data_matrix (accumulate exSrc 2))
      = (fun m : List (List ℚ) => [m.length]) (build_data_matrix (accumulate exSrc 2)) :=
  ⟨fun _ => rfl,
   claim_C9_deterministic_rerun (fun m => [m.length]) exSrc exSrc 2 (fun _ => rfl)⟩

end Validator
